import Mathlib

/-!
Verification development for the faculty-profile crawl-and-extract engine
(`faculty_crawler_v2.py`).  The Python code is shallowly embedded: Python
strings become `String`, Python dicts holding profile records become the
`Profile` structure (a key that may be absent becomes an `Option` field,
read back through `.get(key, default)` = `Option.getD`), the network and
the BeautifulSoup parser are abstracted as explicit oracles, and the
stateful orchestration becomes pure functions over explicit state.
-/

namespace Crawler

/-! ### Python string primitives

Models of the Python built-ins the engine uses — `in` (substring test),
`str.startswith`, `str.endswith`, `str.lower`, `str.strip`, `str.split` —
implemented by structural recursion over the character lists underlying
the strings, so that every use kernel-reduces. -/

/-- Helper for the substring test: does `pat` occur in the tail list? -/
def containsAux (pat : List Char) : List Char → Bool
  | [] => pat.isEmpty
  | c :: cs => pat.isPrefixOf (c :: cs) || containsAux pat cs

/-- Python `pat in s` substring test. -/
def strContains (s pat : String) : Bool :=
  containsAux pat.data s.data

/-- Python `s.startswith(pre)`. -/
def pyStartsWith (s pre : String) : Bool :=
  pre.data.isPrefixOf s.data

/-- Python `s.endswith(suf)`. -/
def pyEndsWith (s suf : String) : Bool :=
  suf.data.reverse.isPrefixOf s.data.reverse

/-- Python `s.lower()` (ASCII case folding, which is all the engine's
inputs exercise). -/
def pyLower (s : String) : String :=
  String.mk (s.data.map Char.toLower)

/-- Python `s.strip()`: drop leading and trailing whitespace. -/
def pyTrim (s : String) : String :=
  String.mk (((s.data.dropWhile Char.isWhitespace).reverse.dropWhile Char.isWhitespace).reverse)

/-- Character-level splitter behind Python `s.split(sep)` for a one-character
separator (the engine only splits on `','`). -/
def splitCharAux (sep : Char) : List Char → List (List Char)
  | [] => [[]]
  | c :: cs =>
      if c = sep then [] :: splitCharAux sep cs
      else
        match splitCharAux sep cs with
        | [] => [[c]]
        | g :: gs => (c :: g) :: gs

/-- Python `s.split(sep)` for a one-character separator. -/
def pySplit (sep : Char) (s : String) : List String :=
  (splitCharAux sep s.data).map String.mk

/-- Helper for `splitColonRest`: the characters after the first `':'`. -/
def afterColonAux : List Char → List Char
  | [] => []
  | c :: cs => if c = ':' then cs else afterColonAux cs

/-- Python `keyword.split(':', 1)[1]`: everything after the first `':'`
(total; returns `""` when there is no `':'`, a case the code guards by a
`startswith` check). -/
def splitColonRest (s : String) : String :=
  String.mk (afterColonAux s.data)

/-! ### The profile record

`parse_profile` builds a Python dict with the eight keys below; cached
records read back from JSON may in principle lack keys, and the code reads
the optional ones through `.get(key, '')`, so every key the code reads
optionally is an `Option String`.  `Profile URL` is always read by direct
indexing (`p['Profile URL']`), so it is a plain `String`.  `match_score` is
the key the free-text sort reads through `.get('match_score', 0)`; no code
path ever writes it, which the embedding reflects by nothing ever setting
it to `some`. -/

structure Profile where
  Institution : Option String := none
  Name : Option String := none
  Department : Option String := none
  vidwanId : Option String := none
  ProfileURL : String
  ImageURL : Option String := none
  Expertise : Option String := none
  html_content : Option String := none
  match_score : Option Int := none
deriving DecidableEq, Repr

/-- The dict comprehension `{k: v for k, v in p.items() if k != 'html_content'}`
applied to every record returned by `crawl`: the raw page body key is removed. -/
def stripHtml (p : Profile) : Profile :=
  { p with html_content := none }

/-! ### Query engine (the filtering block of `crawl`, lines 385-409)

Free-text scoring: `keywords = [k.strip().lower() for k in keyword.split(',')
if k.strip()]`, then per record 2 points per keyword found in the lowered
`Expertise`, else 1 point per keyword found in the lowered `html_content`;
records with score 0 are dropped; the survivors are sorted, stably, by the
descending value of `x.get('match_score', 0)`. -/

/-- The keyword tokenisation of the free-text branch. -/
def tokenize (keyword : String) : List String :=
  (((pySplit ',' keyword).map pyTrim).filter (fun k => k ≠ "")).map pyLower

/-- The per-record score accumulated by the `for kw in keywords` loop:
`+2` when `kw in expertise`, `elif kw in html_content` then `+1`. -/
def matchScore (kws : List String) (p : Profile) : Nat :=
  kws.foldl
    (fun acc kw =>
      if strContains (pyLower (p.Expertise.getD "")) kw then acc + 2
      else if strContains (pyLower (p.html_content.getD "")) kw then acc + 1
      else acc)
    0

/-- The `scored_profiles` list: the loop appends `p` exactly when
`match_score > 0`. -/
def scoredProfiles (kws : List String) : List Profile → List Profile
  | [] => []
  | p :: ps =>
      if 0 < matchScore kws p then p :: scoredProfiles kws ps
      else scoredProfiles kws ps

/-- Stable descending insertion: the element being inserted came earlier in
the original list than everything already placed, so on an equal key it
stays in front.  This is the order `list.sort(key=..., reverse=True)`
produces (CPython's sort is stable, and `reverse=True` does not reorder
equal keys). -/
def insertDesc (key : Profile → Int) (x : Profile) : List Profile → List Profile
  | [] => [x]
  | y :: ys => if key y ≤ key x then x :: y :: ys else y :: insertDesc key x ys

/-- Stable sort by descending key, the model of
`scored_profiles.sort(key=lambda x: x.get('match_score', 0), reverse=True)`. -/
def sortDesc (key : Profile → Int) : List Profile → List Profile
  | [] => []
  | x :: xs => insertDesc key x (sortDesc key xs)

/-- The sort key actually used by the code: `x.get('match_score', 0)`. -/
def pySortKey (p : Profile) : Int :=
  p.match_score.getD 0

/-- The filtering block of `crawl` (lines 386-409).  `keyword = None` and
`keyword = ""` are both falsy in Python, hence the emptiness test. -/
def queryFilter (keyword : Option String) (all_profiles : List Profile) : List Profile :=
  match keyword with
  | none => all_profiles
  | some kw =>
      if kw = "" then all_profiles
      else if pyStartsWith (pyLower kw) "name:" then
        let search_term := pyLower (splitColonRest kw)
        all_profiles.filter (fun p => pyStartsWith (pyLower (p.Name.getD "")) search_term)
      else if pyStartsWith (pyLower kw) "vidwan:" then
        let search_term := pyLower (splitColonRest kw)
        all_profiles.filter (fun p => search_term = pyLower (p.vidwanId.getD ""))
      else
        sortDesc pySortKey (scoredProfiles (tokenize kw) all_profiles)

/-! ### Fetcher (`fetch_html`, lines 275-295)

The declared intent is the `backoff.on_exception(backoff.expo, (TimeoutError,
ClientError, ...), max_tries=5, max_time=300)` decorator: retry the wrapped
coroutine on a timeout or transport exception, at most 5 calls.  The wrapped
body, however, ends in a blanket `except Exception` that logs and returns
`None`.  We model one network attempt as an outcome, the `try` block as a
computation that may raise, the body as the `try` block with the blanket
handler applied, and the decorator as a retry loop around a possibly-raising
call.  The per-attempt network behaviour is an oracle `net : Nat → NetOutcome`
(attempt index ↦ what the network does on that attempt). -/

/-- What one raw network attempt does. -/
inductive NetOutcome where
  | success (body : String)
  | timeout
  | clientError
  | otherError
deriving DecidableEq, Repr

/-- The Python exceptions relevant to `fetch_html`. -/
inductive PyExc where
  | timeoutErr
  | clientErr
  | otherErr
deriving DecidableEq, Repr

/-- The decorator's exception tuple
`(asyncio.TimeoutError, ClientError, aiohttp.ClientError)`. -/
def retryable : PyExc → Bool
  | .timeoutErr => true
  | .clientErr => true
  | .otherErr => false

/-- The `try` block of `fetch_html`: perform the request; a timeout or
transport problem raises the corresponding exception. -/
def fetchTryBlock : NetOutcome → Except PyExc String
  | .success body => .ok body
  | .timeout => .error .timeoutErr
  | .clientError => .error .clientErr
  | .otherError => .error .otherErr

/-- The whole body of `fetch_html`: the `try` block wrapped in
`except Exception: ...; return None`.  Every exception is caught, so the
body never raises. -/
def fetchBody (o : NetOutcome) : Except PyExc (Option String) :=
  match fetchTryBlock o with
  | .ok body => .ok (some body)
  | .error _ => .ok none

/-- The `backoff.on_exception` decorator with `max_tries = t`: call the
wrapped function; if it raises an exception from the retryable tuple and
tries remain, call again, else propagate.  Returns the outcome together
with the number of calls made. -/
def backoffRun (f : Nat → Except PyExc (Option String)) :
    Nat → Nat → Except PyExc (Option String) × Nat
  | 0, i => (.ok none, i)
  | 1, i => (f i, i + 1)
  | t + 2, i =>
      match f i with
      | .ok v => (.ok v, i + 1)
      | .error e =>
          if retryable e then backoffRun f (t + 1) (i + 1)
          else (.error e, i + 1)

/-- The decorated `fetch_html`: `backoff(..., max_tries=5)` applied to the
body whose exceptions are already swallowed. -/
def fetch_html (net : Nat → NetOutcome) : Except PyExc (Option String) × Nat :=
  backoffRun (fun i => fetchBody (net i)) 5 0

/-! ### Cache store (`_is_cache_valid`, `_load_from_cache`, `_save_to_cache`,
lines 332-357) -/

/-- What the bytes of the cache file hold, as seen by `json.load`. -/
inductive CacheContent where
  | corrupt
  | nonList
  | wellFormed (ps : List Profile)
deriving DecidableEq, Repr

/-- The cache file: `none` when the file does not exist, otherwise its
content together with its modification time (`os.path.getmtime`). -/
abbrev CacheFile := Option (CacheContent × Int)

/-- Source constant `self.cache_expiration_seconds = 1 * 60 * 60`. -/
def cache_expiration_seconds : Int := 1 * 60 * 60

/-- Model of `_is_cache_valid` (lines 332-336): the file exists and
`time.time() - os.path.getmtime(...) < cache_expiration_seconds`. -/
def is_cache_valid (cache : CacheFile) (now : Int) : Bool :=
  match cache with
  | none => false
  | some (_, mtime) => now - mtime < cache_expiration_seconds

/-- Model of `_load_from_cache` (lines 338-352): a missing file, a JSON decode
error and a non-list payload all degrade to the empty list. -/
def load_from_cache (cache : CacheFile) : List Profile :=
  match cache with
  | none => []
  | some (.corrupt, _) => []
  | some (.nonList, _) => []
  | some (.wellFormed ps, _) => ps

/-- The write `_save_to_cache` (lines 354-357) opens the cache file with mode `'w'`
and streams `json.dump(profiles, f)` into it.  We model the file contents
visible to a concurrent reader (or left behind by a failure) at each point:
opening with `'w'` truncates the file, and the serialized text `content`
then lands incrementally, so the observable states are the old contents
followed by every prefix of the new text.  (`none` = file absent.) -/
def save_to_cache_states (old : Option (List Char)) (content : List Char) :
    List (Option (List Char)) :=
  old :: (List.range (content.length + 1)).map (fun i => some (content.take i))

/-- Modelled from the spec: the atomic-replace write the spec asserts
("achieved via atomic replace") — a reader observes either the old or the
complete new contents, nothing else. -/
def saveAtomicStates (old : Option (List Char)) (content : List Char) :
    List (Option (List Char)) :=
  [old, some content]

/-! ### Crawl orchestrator (`crawl`, lines 359-414)

The stale branch builds `existing_profiles = {p['Profile URL']: p for p in
all_profiles}`, then for each configured seed URL harvests fresh records
(Link Frontier + Fetcher + `parse_profile`, abstracted below as the oracle
`harvest`) and upserts each into the dict; `list(existing_profiles.values())`
is the merged snapshot.  Python dicts preserve insertion order and an
update of an existing key keeps its position, which `dictInsert` mirrors. -/

/-- A Python dict from profile URL to record, as an ordered entry list. -/
abbrev ProfileDict := List (String × Profile)

/-- Python `d[k] = v` on a dict: replace in place when the key exists,
append otherwise. -/
def dictInsert (m : ProfileDict) (k : String) (v : Profile) : ProfileDict :=
  if m.any (fun kv => kv.1 = k) then
    m.map (fun kv => if kv.1 = k then (k, v) else kv)
  else
    m ++ [(k, v)]

/-- Python `{p['Profile URL']: p for p in ps}`. -/
def dictOfProfiles (ps : List Profile) : ProfileDict :=
  ps.foldl (fun m p => dictInsert m p.ProfileURL p) []

/-- Python `list(d.values())`. -/
def dictValues (m : ProfileDict) : List Profile :=
  m.map (fun kv => kv.2)

/-- Python `list(d.keys())`. -/
def dictKeys (m : ProfileDict) : List String :=
  m.map (fun kv => kv.1)

/-- Python `d.get(k)`: the value stored under key `k`. -/
def dictFind (m : ProfileDict) (k : String) : Option Profile :=
  (m.find? (fun kv => kv.1 = k)).map (fun kv => kv.2)

/-- Well-formedness of the merge dict: every entry is keyed by its
record's profile URL (all inserts use `p['Profile URL']` as the key). -/
def dictWF (m : ProfileDict) : Prop :=
  ∀ kv ∈ m, kv.1 = kv.2.ProfileURL

/-- The inputs of one `crawl` call: the configured seed URLs, the cache
file and current time, and the harvesting oracle (what
`get_all_profile_links` + `fetch_and_process_profiles` produce for one
seed URL — the network-dependent part of the run). -/
structure CrawlEnv where
  base_urls : List String
  cache : CacheFile
  now : Int
  harvest : String → List Profile

/-- The merge of the stale branch: load the surviving snapshot, key it by
profile URL, then upsert every freshly harvested record, seed URL by seed
URL, and take the dict's values. -/
def mergeCrawl (env : CrawlEnv) : List Profile :=
  let base := dictOfProfiles (load_from_cache env.cache)
  let final := env.base_urls.foldl
    (fun m u => (env.harvest u).foldl (fun m p => dictInsert m p.ProfileURL p) m)
    base
  dictValues final

/-- The corpus-acquisition half of `crawl` (lines 363-383), instrumented
with whether a fresh crawl was performed (`true`) or the cache
short-circuited it (`false`). -/
def getAllProfiles (env : CrawlEnv) : List Profile × Bool :=
  if is_cache_valid env.cache env.now then (load_from_cache env.cache, false)
  else (mergeCrawl env, true)

/-- Model of `crawl(keyword)` (lines 359-414): acquire the corpus, filter by the
query expression, and strip `html_content` from every returned record. -/
def crawl (env : CrawlEnv) (keyword : Option String) : List Profile :=
  (queryFilter keyword (getAllProfiles env).1).map stripHtml

/-! ### Profile extractor (`parse_profile`, lines 177-273)

BeautifulSoup is an external library; the embedding abstracts its queries
on `soup = BeautifulSoup(html_content, 'lxml')` as a `Soup` oracle: one
field per distinct query the extractor issues, holding the text (or `src`
attribute) that the query would return, `none` when the query finds
nothing.  The two regexes applied to the raw HTML and to the name string
are implemented directly. -/

/-- The BeautifulSoup queries `parse_profile` issues, pre-evaluated. -/
structure Soup where
  /-- Result of `select_one('h1 strong, h1, div.col-md-9 h3')`, text with `strip=True`. -/
  nameText : Option String := none
  /-- Result of `find(['div','p','span','li'], string=re.compile('Department of|School of', re.I))`,
  text with `strip=True`. -/
  deptDirect : Option String := none
  /-- The two fallback department selectors, in order:
  `ul.name-location li:nth-of-type(2)` then `div[style*="color:#666666"]`;
  each entry is the stripped text of the matched element, `none` when the
  selector matches nothing. -/
  deptFallbacks : List (Option String) := [none, none]
  /-- Result of `find('a', href=re.compile('vidwan.*profile', re.I))['href']`. -/
  vidwanHref : Option String := none
  /-- Text of the `find_next_sibling()` of the heading matched by
  `find(['h2','h3','h4','strong'], text=re.compile('Expertise|Research Interests', re.I))`,
  with `strip=True, separator=', '`; `none` when heading or sibling is missing. -/
  expertiseNext : Option String := none
  /-- The `src` of the first of the ten profile-photo selectors that
  matches an `img` carrying a `src`. -/
  imgSelector : Option String := none
  /-- Tier 2: the `src` of the first `img` whose `src` or `alt` contains
  one of profile/faculty/photo/avatar/user. -/
  imgKeyword : Option String := none
  /-- Tier 3: the `src` values of the first `img` inside each container
  whose class mentions profile/faculty/photo/member/person, in document
  order (only containers that do have an `img` with a `src`). -/
  containerImgs : List String := []

/-- Model of `urllib.parse.urljoin`, abstracted: an already-absolute reference is
kept, anything else is resolved against the base.  (The claims never
depend on the resolver's internals.) -/
def urljoin (base rel : String) : String :=
  if pyStartsWith rel "http://" || pyStartsWith rel "https://" then rel
  else base ++ rel

/-- The alternatives of `r'^(Dr|Prof|Mr|Mrs|Ms|Professor)\.?\s*'`, in the
order the regex engine tries them (so "Mrs" is shadowed by "Mr" and
"Professor" by "Prof", exactly as `re.sub` behaves). -/
def honorifics : List String := ["Dr", "Prof", "Mr", "Mrs", "Ms", "Professor"]

/-- Model of `re.sub(r'^(Dr|Prof|Mr|Mrs|Ms|Professor)\.?\s*', '', name)`. -/
def stripHonorific (s : String) : String :=
  match honorifics.find? (fun h => h.data.isPrefixOf s.data) with
  | some h =>
      let rest := s.data.drop h.data.length
      let rest := match rest with
        | '.' :: rest2 => rest2
        | _ => rest
      String.mk (rest.dropWhile Char.isWhitespace)
  | none => s

/-- Try to match `\s*\([^)]*\)` at the start of the character list;
return what follows the match. -/
def matchParenAt (cs : List Char) : Option (List Char) :=
  match cs.dropWhile Char.isWhitespace with
  | '(' :: rest =>
      match rest.dropWhile (fun c => c ≠ ')') with
      | ')' :: rest2 => some rest2
      | _ => none
  | _ => none

/-- Fuelled scanner for the global `re.sub(r'\s*\([^)]*\)', '', ...)`:
at each position, remove a leftmost match or keep one character.  Each
step consumes at least one character, so fuel = length suffices. -/
def stripParensAux : Nat → List Char → List Char
  | 0, cs => cs
  | _ + 1, [] => []
  | fuel + 1, c :: cs =>
      match matchParenAt (c :: cs) with
      | some rest => stripParensAux fuel rest
      | none => c :: stripParensAux fuel cs

/-- Model of `re.sub(r'\s*\([^)]*\)', '', name)`. -/
def stripParens (s : String) : String :=
  String.mk (stripParensAux s.data.length s.data)

/-- The full name cleaning of lines 180-183 applied to the raw heading
text: strip a leading honorific, delete parenthetical groups, `strip()`. -/
def cleanName (s : String) : String :=
  pyTrim (stripParens (stripHonorific s))

/-- Match the regex `vidwan.irins.org/profile/(\d+)` at the start of the
character list (`.` is the regex wildcard); return the digit group. -/
def matchVidwanAt (cs : List Char) : Option String :=
  match "vidwan".data.isPrefixOf cs, cs.drop 6 with
  | true, _ :: cs2 =>
      match "irins".data.isPrefixOf cs2, cs2.drop 5 with
      | true, _ :: cs3 =>
          match "org/profile/".data.isPrefixOf cs3, cs3.drop 12 with
          | true, cs4 =>
              let ds := cs4.takeWhile Char.isDigit
              if ds.isEmpty then none else some (String.mk ds)
          | false, _ => none
      | _, _ => none
  | _, _ => none

/-- Model of `re.search(r'vidwan.irins.org/profile/(\d+)', html_content)`: the digit
group of the leftmost match. -/
def vidwanSearch : List Char → Option String
  | [] => none
  | c :: cs =>
      match matchVidwanAt (c :: cs) with
      | some d => some d
      | none => vidwanSearch cs

/-- Model of `re.search(r'(\d+)', href)`: the first maximal digit run. -/
def firstDigits : List Char → Option String
  | [] => none
  | c :: cs =>
      if c.isDigit then some (String.mk ((c :: cs).takeWhile Char.isDigit))
      else firstDigits cs

/-- The department fallback loop (lines 190-198): first selector result
with non-empty stripped text wins, else `'N/A'`. -/
def deptFromFallbacks : List (Option String) → String
  | [] => "N/A"
  | some t :: rest => if t ≠ "" then t else deptFromFallbacks rest
  | none :: rest => deptFromFallbacks rest

/-- Tier 3 of the image search (lines 240-250): first container image
whose `src` is not a data URI, icon, or placeholder; relative sources are
resolved against the page URL. -/
def containerImage (url : String) : List String → String
  | [] => "N/A"
  | src :: rest =>
      if !(pyStartsWith src "data:image") && !(pyEndsWith src ".ico")
          && !(strContains (pyLower src) "placeholder") then
        if pyStartsWith src "http://" || pyStartsWith src "https://" then src
        else urljoin url src
      else containerImage url rest

/-- Model of `parse_profile(html_content, url, institution_name)` (lines 177-273). -/
def parse_profile (soup : Soup) (html_content url institution_name : String) : Profile :=
  let name := cleanName (soup.nameText.getD "N/A")
  let department :=
    match soup.deptDirect with
    | some t => t
    | none => deptFromFallbacks soup.deptFallbacks
  let vidwan_id :=
    match vidwanSearch html_content.data with
    | some d => d
    | none =>
        match soup.vidwanHref with
        | some href => (firstDigits href.data).getD "N/A"
        | none => "N/A"
  let expertise := soup.expertiseNext.getD "N/A"
  let image0 :=
    match soup.imgSelector with
    | some src => urljoin url src
    | none =>
        match soup.imgKeyword with
        | some src => urljoin url src
        | none => containerImage url soup.containerImgs
  let image_url :=
    if image0 ≠ "N/A" &&
        (pyStartsWith image0 "data:image" || pyEndsWith image0 ".ico"
          || strContains (pyLower image0) "placeholder") then "N/A"
    else image0
  { Institution := some institution_name
    Name := some name
    Department := some department
    vidwanId := some vidwan_id
    ProfileURL := url
    ImageURL := some image_url
    Expertise := some expertise
    html_content := some html_content
    match_score := none }

/-! ### Link Frontier (`get_all_profile_links`, lines 145-175)

The breadth-first loop over department listing pages.  The per-page data —
which profile links and which pagination links a fetched page yields, and
whether the fetch succeeds at all (`fetch_html` returning `None` models a
failed fetch, whose page contributes no links) — is abstracted as a `Site`.
`urls_to_process` and `processed_urls` are Python sets, embedded as
`Finset String`. -/

/-- The per-page behaviour of one listing site: pagination links and
profile links extracted from a page (already cleaned and resolved to
absolute URLs), and whether the page's fetch succeeds. -/
structure Site where
  pagLinks : String → Finset String
  profLinks : String → Finset String
  fetchOk : String → Bool

/-- The traversal state of the `while urls_to_process:` loop, instrumented
with the batches handed to the Fetcher (`fetchLog`). -/
structure FrontierState where
  toProcess : Finset String
  processed : Finset String
  profiles : Finset String
  fetchLog : List (List String)
deriving DecidableEq

/-- One iteration of the loop (lines 150-170): fetch the whole pending
batch, mark it processed, collect profile links from the successful pages,
and enqueue every pagination link that is neither processed nor already
queued. -/
def stepFrontier (site : Site) (s : FrontierState) : FrontierState :=
  let batch := s.toProcess
  let processed := s.processed ∪ batch
  let fetched := batch.filter (fun u => site.fetchOk u)
  let profiles := s.profiles ∪ fetched.biUnion site.profLinks
  let next := fetched.biUnion site.pagLinks \ processed
  { toProcess := next
    processed := processed
    profiles := profiles
    fetchLog := s.fetchLog ++ [batch.sort (· ≤ ·)] }

/-- The fuelled `while urls_to_process:` loop. -/
def runFrontier (site : Site) : Nat → FrontierState → FrontierState
  | 0, s => s
  | fuel + 1, s =>
      if s.toProcess = ∅ then s
      else runFrontier site fuel (stepFrontier site s)

/-- The state right after the initial department links are queued. -/
def initFrontier (initial_dept_links : Finset String) : FrontierState :=
  { toProcess := initial_dept_links
    processed := ∅
    profiles := ∅
    fetchLog := [] }

/-- The synthetic two-page pagination cycle of the spec's cycle-safety
property: page `A` links to page `B` and page `B` back to `A`. -/
def cycleSite : Site :=
  { pagLinks := fun u => if u = "A" then {"B"} else if u = "B" then {"A"} else ∅
    profLinks := fun _ => ∅
    fetchOk := fun _ => true }

/-- Invariant of the traversal loop over a finite universe `V` of listing
pages: queue and visited set live in `V`, are disjoint, and the fetch log
is duplicate-free with every logged URL already visited. -/
def frontierInv (V : Finset String) (s : FrontierState) : Prop :=
  s.toProcess ⊆ V ∧ s.processed ⊆ V
    ∧ (∀ u ∈ s.toProcess, u ∉ s.processed)
    ∧ s.fetchLog.flatten.Nodup
    ∧ ∀ u ∈ s.fetchLog.flatten, u ∈ s.processed

/-! ### Spec-side definitions and concrete instances -/

/-- Modelled from the spec's scoring formula, for comparison with the
code's accumulation loop: `score = 2 × (number of keywords found as a
substring of Expertise) + 1 × (number of keywords found only in RawHTML)`. -/
def specScore (kws : List String) (p : Profile) : Nat :=
  2 * kws.countP (fun kw => strContains (pyLower (p.Expertise.getD "")) kw)
    + kws.countP (fun kw =>
        !strContains (pyLower (p.Expertise.getD "")) kw
          && strContains (pyLower (p.html_content.getD "")) kw)

/-- A cached sample record. -/
def pCached : Profile :=
  { ProfileURL := "http://s/p1", Name := some "Ada", html_content := some "<x>" }

/-- An environment whose cache is fresh (age 10 < 3600). -/
def envValid : CrawlEnv :=
  { base_urls := ["http://s"]
    cache := some (.wellFormed [pCached], 0)
    now := 10
    harvest := fun _ => [] }

/-- Record matching the free-text keyword `"q"` only in its raw HTML
(score 1). -/
def pLow : Profile :=
  { ProfileURL := "u1", Expertise := some "a", html_content := some "q" }

/-- Record matching the free-text keyword `"q"` in its Expertise
(score 2). -/
def pHigh : Profile :=
  { ProfileURL := "u2", Expertise := some "q" }

/-- A fresh cache whose corpus lists the low-scoring record first. -/
def envScores : CrawlEnv :=
  { base_urls := []
    cache := some (.wellFormed [pLow, pHigh], 0)
    now := 0
    harvest := fun _ => [] }

/-- The previously cached record for URL `http://s/p`. -/
def pOld : Profile :=
  { ProfileURL := "http://s/p", Department := some "Physics" }

/-- A freshly extracted record for the same URL with another department. -/
def pNew : Profile :=
  { ProfileURL := "http://s/p", Department := some "Maths" }

/-- A stale-cache environment whose single seed harvests `pNew`. -/
def envMerge : CrawlEnv :=
  { base_urls := ["http://s"]
    cache := some (.wellFormed [pOld], 0)
    now := 7200
    harvest := fun u => if u = "http://s" then [pNew] else [] }

/-- A network that times out on the first attempt and would succeed on
every later one. -/
def transientNet : Nat → NetOutcome :=
  fun i => if i = 0 then .timeout else .success "ok"

/-! ### Scratch checks -/

example :
    (runFrontier cycleSite 2 (initFrontier {"A"})).processed = ({"A", "B"} : Finset String)
      ∧ (runFrontier cycleSite 2 (initFrontier {"A"})).toProcess = ∅ := by
  decide

example : tokenize " Machine Learning, ,robotics " = ["machine learning", "robotics"] := by
  decide

example :
    matchScore ["q"]
      { ProfileURL := "u", Expertise := some "aQb", html_content := some "" } = 2 := by
  decide

example :
    queryFilter (some "name:") [{ ProfileURL := "u" }] = [{ ProfileURL := "u" }] := by
  decide

/-! ## Theorems -/

/-! ### Helper lemmas -/

/-- Every string starts with the empty string (Python
`s.startswith('')` is `True`). -/
theorem pyStartsWith_empty (s : String) : pyStartsWith s "" = true := by
  obtain ⟨l⟩ := s
  cases l <;> rfl

/-- C8: For every query mode (name:, vidwan:, free text, or empty
expression), no record returned by crawl contains the raw page body field
(`html_content`); it is stripped from every returned record. -/
theorem rawHtml_never_leaks (env : CrawlEnv) (keyword : Option String) (p : Profile)
    (hp : p ∈ crawl env keyword) : p.html_content = none := by
  unfold crawl at hp
  rcases List.mem_map.mp hp with ⟨q, _, rfl⟩
  rfl

/-- Witness for `rawHtml_never_leaks` at a concrete environment and
record. -/
theorem rawHtml_never_leaks_witness : (stripHtml pCached).html_content = none :=
  rawHtml_never_leaks envValid none (stripHtml pCached) (by decide)

/-- C10: The query expression `"name:"` (empty term after the colon)
selects every record of the corpus in corpus order, because the
case-insensitive prefix test with the empty term succeeds for every
`Name`, including a missing `Name` read back as the empty string. -/
theorem name_mode_empty_term_selects_all :
    (∀ ps : List Profile, queryFilter (some "name:") ps = ps)
      ∧ ∀ env : CrawlEnv,
          crawl env (some "name:") = ((getAllProfiles env).1).map stripHtml := by
  have hq : ∀ ps : List Profile, queryFilter (some "name:") ps = ps := by
    intro ps
    have hterm : pyLower (splitColonRest "name:") = "" := by decide
    simp only [queryFilter]
    rw [if_neg (by decide), if_pos (by decide)]
    rw [hterm]
    simp [pyStartsWith_empty]
  exact ⟨hq, fun env => by unfold crawl; rw [hq]⟩

/-- C7: The cache is valid iff the snapshot file exists and its age
(now − mtime) is strictly below the 1-hour expiration window; when valid,
`crawl` short-circuits and uses the cached snapshot without crawling;
when invalid a fresh crawl (the merge path) is performed. -/
theorem cache_validity_boundary (env : CrawlEnv) :
    cache_expiration_seconds = 3600
      ∧ (is_cache_valid env.cache env.now = true
          ↔ ∃ c mt, env.cache = some (c, mt) ∧ env.now - mt < 3600)
      ∧ (is_cache_valid env.cache env.now = true →
          getAllProfiles env = (load_from_cache env.cache, false))
      ∧ (is_cache_valid env.cache env.now = false →
          getAllProfiles env = (mergeCrawl env, true)) := by
  refine ⟨rfl, ?_, ?_, ?_⟩
  · rcases h : env.cache with _ | ⟨c, mt⟩
    · simp [is_cache_valid, h]
    · simp only [is_cache_valid, h, decide_eq_true_eq, cache_expiration_seconds]
      constructor
      · intro hlt
        exact ⟨c, mt, rfl, by simpa using hlt⟩
      · rintro ⟨c', mt', heq, hlt⟩
        simp only [Option.some.injEq, Prod.mk.injEq] at heq
        obtain ⟨rfl, rfl⟩ := heq
        simpa using hlt
  · intro hvalid
    simp [getAllProfiles, hvalid]
  · intro hinvalid
    simp [getAllProfiles, hinvalid]

/-- Witness for `cache_validity_boundary`: a 10-second-old cache is valid
and short-circuits crawling. -/
theorem cache_validity_boundary_witness :
    getAllProfiles envValid = ([pCached], false) :=
  (cache_validity_boundary envValid).2.2.1 (by decide)

/-- C9: On an HTML fragment with no recognizable markup (every
BeautifulSoup query fails and the raw text holds no vidwan profile URL),
`parse_profile` still returns a record — totality is by construction in
the embedding — and every heuristic field defaults to the sentinel
`"N/A"`; in particular `Department` and `Expertise` are `"N/A"`. -/
theorem parse_profile_sentinel_defaults (html_content url institution_name : String)
    (hvid : vidwanSearch html_content.data = none) :
    parse_profile {} html_content url institution_name =
      { Institution := some institution_name
        Name := some "N/A"
        Department := some "N/A"
        vidwanId := some "N/A"
        ProfileURL := url
        ImageURL := some "N/A"
        Expertise := some "N/A"
        html_content := some html_content
        match_score := none } := by
  have hname : cleanName "N/A" = "N/A" := by decide
  simp [parse_profile, hvid, hname, deptFromFallbacks, containerImage]

/-- Witness for `parse_profile_sentinel_defaults` at a concrete fragment. -/
theorem parse_profile_sentinel_defaults_witness :
    parse_profile {} "<p>x</p>" "u" "I" =
      { Institution := some "I"
        Name := some "N/A"
        Department := some "N/A"
        vidwanId := some "N/A"
        ProfileURL := "u"
        ImageURL := some "N/A"
        Expertise := some "N/A"
        html_content := some "<p>x</p>"
        match_score := none } :=
  parse_profile_sentinel_defaults "<p>x</p>" "u" "I" (by decide)

/-- C3 (code bug): `fetch_html` makes exactly one network attempt for
every behaviour of the network — the blanket `except Exception` inside the
body swallows the timeout and transport exceptions before the `backoff`
decorator can see them, so the promised up-to-5-attempt retry never
happens; on a transient first-attempt timeout it yields the failure value
after that single attempt even though the second attempt would have
succeeded. -/
theorem fetch_html_single_attempt :
    (∀ net : Nat → NetOutcome, (fetch_html net).2 = 1)
      ∧ fetch_html transientNet = (.ok none, 1)
      ∧ fetchTryBlock (transientNet 1) = .ok "ok" := by
  refine ⟨?_, rfl, rfl⟩
  intro net
  cases h : net 0 <;> simp [fetch_html, backoffRun, fetchBody, fetchTryBlock, h]

/-- C4 counterexample: with old contents `"[]"` and new serialized text
`"[1]"`, the write trace of `_save_to_cache` contains a state (the
truncated file) that is neither the old nor the new contents, so a reader
can observe a partially written snapshot. -/
theorem save_to_cache_not_atomic_cex :
    ¬ (∀ st ∈ save_to_cache_states (some "[]".data) "[1]".data,
        st = some "[]".data ∨ st = some "[1]".data) := by
  decide

/-- C4 (amended): `_save_to_cache` truncates the snapshot file in place
and then streams the JSON text into it, so the empty truncated state and
every prefix of the new contents are observable to a concurrent reader
(and are what a failed write leaves behind); only a completed write ends
with the full contents. -/
theorem save_to_cache_truncates (old : Option (List Char)) (content : List Char) :
    some [] ∈ save_to_cache_states old content
      ∧ ∀ i : Nat, i ≤ content.length →
          some (content.take i) ∈ save_to_cache_states old content := by
  constructor
  · exact List.mem_cons_of_mem _
      (List.mem_map.mpr ⟨0, List.mem_range.mpr (Nat.succ_pos _), rfl⟩)
  · intro i hi
    exact List.mem_cons_of_mem _
      (List.mem_map.mpr ⟨i, List.mem_range.mpr (Nat.lt_succ_of_le hi), rfl⟩)

/-- Witness for `save_to_cache_truncates`: the one-character prefix of the
new contents is an observable intermediate state. -/
theorem save_to_cache_truncates_witness :
    some ("[1]".data.take 1) ∈ save_to_cache_states (some "[]".data) "[1]".data :=
  (save_to_cache_truncates (some "[]".data) "[1]".data).2 1 (by decide)

/-- C1 (code bug): in free-text mode the records are not sorted by
descending match score — the loop computes `match_score` into a local
variable but never stores it on the record, and the sort key
`x.get('match_score', 0)` is therefore 0 for every record, so the stable
sort returns the corpus order unchanged: a corpus listing a score-1 record
before a score-2 record is returned in that same order. -/
theorem freetext_order_ignores_matchScore :
    matchScore (tokenize "q") pLow = 1
      ∧ matchScore (tokenize "q") pHigh = 2
      ∧ pySortKey pLow = 0
      ∧ pySortKey pHigh = 0
      ∧ crawl envScores (some "q") = [stripHtml pLow, stripHtml pHigh] := by
  decide

/-- The scoring loop's accumulator adds the spec-side score to its seed. -/
theorem foldl_score_acc (p : Profile) (kws : List String) (acc : Nat) :
    kws.foldl
      (fun acc kw =>
        if strContains (pyLower (p.Expertise.getD "")) kw then acc + 2
        else if strContains (pyLower (p.html_content.getD "")) kw then acc + 1
        else acc) acc = acc + specScore kws p := by
  induction kws generalizing acc with
  | nil => simp [specScore]
  | cons kw rest ih =>
      by_cases h1 : strContains (pyLower (p.Expertise.getD "")) kw = true
      · simp [specScore, List.countP_cons, h1, ih]
        omega
      · by_cases h2 : strContains (pyLower (p.html_content.getD "")) kw = true
        · simp [specScore, List.countP_cons, h1, h2, ih]
          omega
        · simp [specScore, List.countP_cons, h1, h2, ih]

/-- The code's accumulated `match_score` equals the spec's counting
formula. -/
theorem matchScore_eq_specScore (kws : List String) (p : Profile) :
    matchScore kws p = specScore kws p := by
  simpa using foldl_score_acc p kws 0

/-- The `scored_profiles` loop keeps exactly the records of positive
score, in corpus order. -/
theorem scoredProfiles_eq_filter (kws : List String) (ps : List Profile) :
    scoredProfiles kws ps = ps.filter (fun p => 0 < matchScore kws p) := by
  induction ps with
  | nil => rfl
  | cons p rest ih =>
      by_cases h : 0 < matchScore kws p <;>
        simp [scoredProfiles, List.filter_cons, h, ih]

/-- Lowering a string preserves emptiness. -/
theorem pyLower_eq_empty_iff (s : String) : pyLower s = "" ↔ s = "" := by
  obtain ⟨l⟩ := s
  cases l with
  | nil => simp [pyLower]
  | cons c cs =>
      constructor
      · intro h
        have := congrArg String.data h
        simp [pyLower] at this
      · intro h
        have := congrArg String.data h
        simp at this

/-- Dropping empty tokens commutes with lower-casing them. -/
theorem filter_map_pyLower (l : List String) :
    (l.filter (fun k => k ≠ "")).map pyLower
      = (l.map pyLower).filter (fun t => t ≠ "") := by
  induction l with
  | nil => rfl
  | cons k rest ih =>
      simp only [ne_eq, decide_not] at ih ⊢
      by_cases h : k = ""
      · subst h
        have hl : pyLower "" = "" := rfl
        simp [hl, ih]
      · have h2 : ¬ pyLower k = "" := fun hc => h ((pyLower_eq_empty_iff k).mp hc)
        simp [h, h2, ih]

/-- C2: In free-text mode the keyword tokens are the comma-split pieces,
trimmed, lower-cased, with empty tokens dropped; each record's score is
2 per keyword found in its Expertise, else 1 per keyword found only in its
raw HTML (a keyword found in Expertise never also counts for the raw-HTML
bucket — the spec-side counting formula `specScore` makes the buckets
disjoint); and every record of score 0 is excluded from the result. -/
theorem freetext_scoring_formula (kw : String) (ps : List Profile)
    (h0 : kw ≠ "")
    (hn : pyStartsWith (pyLower kw) "name:" = false)
    (hv : pyStartsWith (pyLower kw) "vidwan:" = false) :
    queryFilter (some kw) ps
        = sortDesc pySortKey (ps.filter (fun p => 0 < matchScore (tokenize kw) p))
      ∧ (∀ p : Profile, matchScore (tokenize kw) p = specScore (tokenize kw) p)
      ∧ tokenize kw
          = ((pySplit ',' kw).map (fun k => pyLower (pyTrim k))).filter (fun t => t ≠ "")
      ∧ ∀ t ∈ tokenize kw, t ≠ "" := by
  have htok : tokenize kw
      = ((pySplit ',' kw).map (fun k => pyLower (pyTrim k))).filter (fun t => t ≠ "") := by
    unfold tokenize
    rw [filter_map_pyLower, List.map_map]
    rfl
  refine ⟨?_, fun p => matchScore_eq_specScore _ p, htok, ?_⟩
  · simp only [queryFilter]
    rw [if_neg h0, if_neg (by simp [hn]), if_neg (by simp [hv]),
      scoredProfiles_eq_filter]
  · intro t ht
    rw [htok] at ht
    simpa using (List.mem_filter.mp ht).2

/-- Witness for `freetext_scoring_formula` on a two-keyword expression and
a one-record corpus. -/
theorem freetext_scoring_formula_witness :
    queryFilter (some "q, r") [pLow]
        = sortDesc pySortKey ([pLow].filter (fun p => 0 < matchScore (tokenize "q, r") p))
      ∧ (∀ p : Profile,
          matchScore (tokenize "q, r") p = specScore (tokenize "q, r") p)
      ∧ tokenize "q, r"
          = ((pySplit ',' "q, r").map (fun k => pyLower (pyTrim k))).filter (fun t => t ≠ "")
      ∧ ∀ t ∈ tokenize "q, r", t ≠ "" :=
  freetext_scoring_formula "q, r" [pLow] (by decide) (by decide) (by decide)

/-! ### Python-dict lemmas for the merge upsert -/

/-- Upserting under a key different from the head passes the head
through. -/
theorem dictInsert_cons_ne (m : ProfileDict) (k₀ k : String) (v₀ v : Profile)
    (h : k₀ ≠ k) :
    dictInsert ((k₀, v₀) :: m) k v = (k₀, v₀) :: dictInsert m k v := by
  by_cases hm : m.any (fun kv => kv.1 = k) = true <;>
    simp [dictInsert, hm, h]

/-- Upserting under the head's own key rewrites the head in place. -/
theorem dictInsert_cons_eq (m : ProfileDict) (k : String) (v₀ v : Profile) :
    dictInsert ((k, v₀) :: m) k v
      = (k, v) :: m.map (fun kv => if kv.1 = k then (k, v) else kv) := by
  simp [dictInsert]

/-- Inserting `d[k] = v` makes `d.get(k)` return `v`. -/
theorem dictFind_insert_self (m : ProfileDict) (k : String) (v : Profile) :
    dictFind (dictInsert m k v) k = some v := by
  induction m with
  | nil => simp [dictInsert, dictFind]
  | cons kv m ih =>
      obtain ⟨k₀, v₀⟩ := kv
      by_cases h : k₀ = k
      · subst h
        simp [dictInsert_cons_eq, dictFind]
      · rw [dictInsert_cons_ne m k₀ k v₀ v h]
        unfold dictFind at ih ⊢
        rw [List.find?_cons_of_neg _ (by simp [h])]
        exact ih

/-- Replacing the entry at key `k` does not change lookups at other
keys. -/
theorem find?_replace_other (m : ProfileDict) (k k' : String) (v : Profile)
    (h : k' ≠ k) :
    (m.map (fun kv => if kv.1 = k then (k, v) else kv)).find?
        (fun kv => kv.1 = k')
      = m.find? (fun kv => kv.1 = k') := by
  induction m with
  | nil => rfl
  | cons kv m ih =>
      obtain ⟨k₀, v₀⟩ := kv
      by_cases h0 : k₀ = k
      · subst h0
        rw [List.map_cons, if_pos rfl,
          List.find?_cons_of_neg _ (by simpa using Ne.symm h),
          List.find?_cons_of_neg _ (by simpa using Ne.symm h)]
        exact ih
      · rw [List.map_cons, if_neg h0]
        by_cases h1 : k₀ = k'
        · subst h1
          rw [List.find?_cons_of_pos _ (by simp),
            List.find?_cons_of_pos _ (by simp)]
        · rw [List.find?_cons_of_neg _ (by simp [h1]),
            List.find?_cons_of_neg _ (by simp [h1])]
          exact ih

/-- Inserting `d[k] = v` does not change `d.get(k')` for `k' ≠ k`. -/
theorem dictFind_insert_ne (m : ProfileDict) (k k' : String) (v : Profile)
    (h : k' ≠ k) :
    dictFind (dictInsert m k v) k' = dictFind m k' := by
  induction m with
  | nil => simp [dictInsert, dictFind, Ne.symm h]
  | cons kv m ih =>
      obtain ⟨k₀, v₀⟩ := kv
      by_cases h0 : k₀ = k
      · subst h0
        rw [dictInsert_cons_eq]
        unfold dictFind
        rw [List.find?_cons_of_neg _ (by simp [Ne.symm h]),
          find?_replace_other m k₀ k' v h]
        by_cases h1 : k₀ = k'
        · subst h1
          rw [List.find?_cons_of_pos _ (by simp)]
          exact absurd rfl h
        · rw [List.find?_cons_of_neg _ (by simp [h1])]
      · rw [dictInsert_cons_ne m k₀ k v₀ v h0]
        unfold dictFind at ih ⊢
        by_cases h1 : k₀ = k'
        · subst h1
          rw [List.find?_cons_of_pos _ (by simp),
            List.find?_cons_of_pos _ (by simp)]
        · rw [List.find?_cons_of_neg _ (by simp [h1]),
            List.find?_cons_of_neg _ (by simp [h1])]
          exact ih

/-- Upserting keeps the key list (existing key) or appends the new key. -/
theorem dictKeys_insert (m : ProfileDict) (k : String) (v : Profile) :
    dictKeys (dictInsert m k v)
      = if m.any (fun kv => kv.1 = k) then dictKeys m else dictKeys m ++ [k] := by
  by_cases hm : m.any (fun kv => kv.1 = k) = true
  · rw [if_pos hm]
    unfold dictInsert dictKeys
    rw [if_pos hm, List.map_map]
    exact List.map_congr_left (fun kv _ => by by_cases h : kv.1 = k <;> simp [h])
  · rw [if_neg hm]
    unfold dictInsert dictKeys
    rw [if_neg hm]
    simp

/-- Upserting preserves duplicate-freedom of the key list. -/
theorem dictKeys_nodup_insert (m : ProfileDict) (k : String) (v : Profile)
    (h : (dictKeys m).Nodup) : (dictKeys (dictInsert m k v)).Nodup := by
  rw [dictKeys_insert]
  by_cases hm : m.any (fun kv => kv.1 = k) = true
  · rw [if_pos hm]; exact h
  · rw [if_neg hm]
    refine List.Nodup.append h (List.nodup_singleton k) ?_
    intro a ha hk
    rcases List.mem_singleton.mp hk with rfl
    rcases List.mem_map.mp ha with ⟨kv, hkv, hfst⟩
    have hfalse : m.any (fun kv => kv.1 = a) = false := Bool.eq_false_iff.mpr hm
    have hne := List.any_eq_false.mp hfalse kv hkv
    simp only [decide_eq_true_eq] at hne
    exact hne hfst

/-- Upserting a record under its own URL preserves well-formedness. -/
theorem dictWF_insert (m : ProfileDict) (v : Profile)
    (h : dictWF m) : dictWF (dictInsert m v.ProfileURL v) := by
  intro kv hkv
  unfold dictInsert at hkv
  by_cases hm : m.any (fun kv => kv.1 = v.ProfileURL) = true
  · rw [if_pos hm] at hkv
    rcases List.mem_map.mp hkv with ⟨kv₀, hkv₀, rfl⟩
    by_cases h0 : kv₀.1 = v.ProfileURL
    · rw [if_pos h0]
    · rw [if_neg h0]
      exact h kv₀ hkv₀
  · rw [if_neg hm] at hkv
    rcases List.mem_append.mp hkv with hin | hone
    · exact h kv hin
    · rcases List.mem_singleton.mp hone with rfl
      rfl

/-- Folding a batch of fresh records into the dict preserves both key
duplicate-freedom and well-formedness. -/
theorem dict_inv_foldl (ps : List Profile) (m : ProfileDict)
    (hnd : (dictKeys m).Nodup) (hwf : dictWF m) :
    (dictKeys (ps.foldl (fun m p => dictInsert m p.ProfileURL p) m)).Nodup
      ∧ dictWF (ps.foldl (fun m p => dictInsert m p.ProfileURL p) m) := by
  induction ps generalizing m with
  | nil => exact ⟨hnd, hwf⟩
  | cons p rest ih =>
      exact ih (dictInsert m p.ProfileURL p)
        (dictKeys_nodup_insert m p.ProfileURL p hnd) (dictWF_insert m p hwf)

/-- If no record of the batch is keyed by `u`, folding the batch in leaves
the lookup at `u` unchanged. -/
theorem dictFind_foldl_no_hit (ps : List Profile) (m : ProfileDict) (u : String)
    (h : ∀ p ∈ ps, p.ProfileURL ≠ u) :
    dictFind (ps.foldl (fun m p => dictInsert m p.ProfileURL p) m) u
      = dictFind m u := by
  induction ps generalizing m with
  | nil => rfl
  | cons p rest ih =>
      rw [List.foldl_cons, ih _ (fun q hq => h q (List.mem_cons_of_mem _ hq)),
        dictFind_insert_ne _ _ _ _ (fun hc => h p (List.mem_cons_self _ _) hc.symm)]

/-- If `v` is the unique batch record keyed by `u`, then after folding the
batch in, the lookup at `u` returns `v`. -/
theorem dictFind_foldl_last (ps : List Profile) (m : ProfileDict) (u : String)
    (v : Profile) (hps : ps.filter (fun p => p.ProfileURL = u) = [v]) :
    dictFind (ps.foldl (fun m p => dictInsert m p.ProfileURL p) m) u = some v := by
  induction ps generalizing m with
  | nil => simp at hps
  | cons p rest ih =>
      by_cases hp : p.ProfileURL = u
      · rw [List.filter_cons_of_pos (by simp [hp])] at hps
        obtain ⟨rfl, hrest⟩ : p = v ∧ rest.filter (fun q => q.ProfileURL = u) = [] := by
          simpa using hps
        have hno : ∀ q ∈ rest, q.ProfileURL ≠ u := by
          intro q hq
          have := List.filter_eq_nil_iff.mp hrest q hq
          simpa using this
        rw [List.foldl_cons, dictFind_foldl_no_hit rest _ u hno, hp,
          dictFind_insert_self]
      · rw [List.filter_cons_of_neg (by simp [hp])] at hps
        rw [List.foldl_cons]
        exact ih _ hps

/-- With a well-formed, duplicate-free dict, filtering the values by URL
`u` yields exactly the looked-up record. -/
theorem dictValues_filter_eq (m : ProfileDict) (u : String)
    (hnd : (dictKeys m).Nodup) (hwf : dictWF m) :
    (dictValues m).filter (fun p => p.ProfileURL = u) = (dictFind m u).toList := by
  induction m with
  | nil => rfl
  | cons kv m ih =>
      obtain ⟨k, p⟩ := kv
      have hk : k = p.ProfileURL := hwf (k, p) (List.mem_cons_self _ _)
      have hnd' : (dictKeys m).Nodup := (List.nodup_cons.mp hnd).2
      have hk_not : k ∉ dictKeys m := (List.nodup_cons.mp hnd).1
      have hwf' : dictWF m := fun kv hkv => hwf kv (List.mem_cons_of_mem _ hkv)
      by_cases hp : p.ProfileURL = u
      · rw [show dictValues ((k, p) :: m) = p :: dictValues m from rfl,
          List.filter_cons_of_pos (by simp [hp])]
        unfold dictFind
        rw [List.find?_cons_of_pos _ (by simp [hk, hp])]
        have hnone : (dictValues m).filter (fun q => q.ProfileURL = u) = [] := by
          rw [List.filter_eq_nil_iff]
          intro q hq
          rcases List.mem_map.mp hq with ⟨kv₀, hkv₀, rfl⟩
          have := hwf' kv₀ hkv₀
          simp only [decide_eq_true_eq]
          intro hc
          exact hk_not (by
            rw [hk, hp, ← hc, ← this]
            exact List.mem_map.mpr ⟨kv₀, hkv₀, rfl⟩)
        rw [hnone]
        rfl
      · rw [show dictValues ((k, p) :: m) = p :: dictValues m from rfl,
          List.filter_cons_of_neg (by simp [hp])]
        unfold dictFind
        rw [List.find?_cons_of_neg _ (by simp [hk, hp])]
        exact ih hnd' hwf'

/-- With a well-formed dict, the URLs of the values are exactly the
keys. -/
theorem dictValues_map_url (m : ProfileDict) (hwf : dictWF m) :
    (dictValues m).map (fun p => p.ProfileURL) = dictKeys m := by
  unfold dictValues dictKeys
  rw [List.map_map]
  exact List.map_congr_left (fun kv hkv => (hwf kv hkv).symm)

/-- C5: Merge is an upsert keyed by profile URL: if the fresh harvest of
the single configured seed contains exactly one record `p_new` for URL `u`
and the loaded cache already held a record for `u`, the merged snapshot
contains exactly one record for `u`, namely `p_new`, and the profile URL
stays unique across the merged corpus. -/
theorem merge_upsert_unique (env : CrawlEnv) (b u : String) (old p_new : Profile)
    (hurls : env.base_urls = [b])
    (hold : old ∈ load_from_cache env.cache) (holdu : old.ProfileURL = u)
    (hnew : (env.harvest b).filter (fun p => p.ProfileURL = u) = [p_new]) :
    (mergeCrawl env).filter (fun p => p.ProfileURL = u) = [p_new]
      ∧ ((mergeCrawl env).map (fun p => p.ProfileURL)).Nodup := by
  have hM : mergeCrawl env
      = dictValues ((env.harvest b).foldl (fun m p => dictInsert m p.ProfileURL p)
          (dictOfProfiles (load_from_cache env.cache))) := by
    unfold mergeCrawl
    rw [hurls]
    rfl
  have hbase := dict_inv_foldl (load_from_cache env.cache) []
    (by simp [dictKeys]) (by intro kv hkv; simp at hkv)
  have hfin := dict_inv_foldl (env.harvest b) (dictOfProfiles (load_from_cache env.cache))
    hbase.1 hbase.2
  constructor
  · rw [hM, dictValues_filter_eq _ _ hfin.1 hfin.2,
      dictFind_foldl_last _ _ _ _ hnew]
    rfl
  · rw [hM, dictValues_map_url _ hfin.2]
    exact hfin.1

/-- Witness for `merge_upsert_unique`: the cached Physics record for
`http://s/p` is replaced by the freshly harvested Maths record. -/
theorem merge_upsert_unique_witness :
    (mergeCrawl envMerge).filter (fun p => p.ProfileURL = "http://s/p") = [pNew]
      ∧ ((mergeCrawl envMerge).map (fun p => p.ProfileURL)).Nodup :=
  merge_upsert_unique envMerge "http://s" "http://s/p" pOld pNew rfl
    (by decide) (by decide) (by decide)

/-! ### Frontier lemmas -/

/-- One loop iteration preserves the traversal invariant. -/
theorem stepFrontier_inv (site : Site) (V : Finset String) (s : FrontierState)
    (hcl : ∀ u ∈ V, site.fetchOk u = true → site.pagLinks u ⊆ V)
    (h : frontierInv V s) : frontierInv V (stepFrontier site s) := by
  obtain ⟨h1, h2, h3, h4, h5⟩ := h
  refine ⟨?_, ?_, ?_, ?_, ?_⟩
  · intro u hu
    have hu' := Finset.mem_sdiff.mp hu
    rcases Finset.mem_biUnion.mp hu'.1 with ⟨w, hw, hpw⟩
    have hwb : w ∈ s.toProcess := (Finset.mem_filter.mp hw).1
    have hwok : site.fetchOk w = true := (Finset.mem_filter.mp hw).2
    exact hcl w (h1 hwb) hwok hpw
  · intro u hu
    rcases Finset.mem_union.mp hu with h | h
    · exact h2 h
    · exact h1 h
  · intro u hu
    exact (Finset.mem_sdiff.mp hu).2
  · show ((s.fetchLog ++ [s.toProcess.sort (· ≤ ·)]).flatten).Nodup
    rw [List.flatten_append, List.flatten_cons, List.flatten_nil, List.append_nil]
    refine List.Nodup.append h4 (Finset.sort_nodup _ _) ?_
    intro a ha hb
    exact h3 a ((Finset.mem_sort _).mp hb) (h5 a ha)
  · intro u hu
    show u ∈ s.processed ∪ s.toProcess
    have hu' : u ∈ (s.fetchLog ++ [s.toProcess.sort (· ≤ ·)]).flatten := hu
    rw [List.flatten_append, List.flatten_cons, List.flatten_nil,
      List.append_nil] at hu'
    rcases List.mem_append.mp hu' with h | h
    · exact Finset.mem_union_left _ (h5 u h)
    · exact Finset.mem_union_right _ ((Finset.mem_sort _).mp h)

/-- The invariant is preserved by any number of loop iterations. -/
theorem runFrontier_inv (site : Site) (V : Finset String)
    (hcl : ∀ u ∈ V, site.fetchOk u = true → site.pagLinks u ⊆ V) :
    ∀ (fuel : Nat) (s : FrontierState), frontierInv V s →
      frontierInv V (runFrontier site fuel s) := by
  intro fuel
  induction fuel with
  | zero => exact fun s h => h
  | succ n ih =>
      intro s h
      by_cases hempty : s.toProcess = ∅
      · simpa [runFrontier, hempty] using h
      · rw [runFrontier, if_neg hempty]
        exact ih _ (stepFrontier_inv site V s hcl h)

/-- With fuel at least the number of not-yet-visited pages of the
universe, the work queue empties: the loop terminates. -/
theorem runFrontier_empties (site : Site) (V : Finset String)
    (hcl : ∀ u ∈ V, site.fetchOk u = true → site.pagLinks u ⊆ V) :
    ∀ (fuel : Nat) (s : FrontierState), frontierInv V s →
      (V \ s.processed).card ≤ fuel →
      (runFrontier site fuel s).toProcess = ∅ := by
  intro fuel
  induction fuel with
  | zero =>
      intro s hinv hcard
      have hVsub : V \ s.processed = ∅ := Finset.card_eq_zero.mp (Nat.le_zero.mp hcard)
      show s.toProcess = ∅
      rw [Finset.eq_empty_iff_forall_not_mem]
      intro u hu
      have huV : u ∈ V := hinv.1 hu
      have : u ∈ s.processed := by
        by_contra hnp
        exact Finset.not_mem_empty u
          (hVsub ▸ Finset.mem_sdiff.mpr ⟨huV, hnp⟩)
      exact hinv.2.2.1 u hu this
  | succ n ih =>
      intro s hinv hcard
      by_cases hempty : s.toProcess = ∅
      · simp [runFrontier, hempty]
      · rw [runFrontier, if_neg hempty]
        apply ih _ (stepFrontier_inv site V s hcl hinv)
        have hproc : (stepFrontier site s).processed = s.processed ∪ s.toProcess := rfl
        have hBsub : s.toProcess ⊆ V \ s.processed := fun u hu =>
          Finset.mem_sdiff.mpr ⟨hinv.1 hu, hinv.2.2.1 u hu⟩
        have hBne : s.toProcess.Nonempty := Finset.nonempty_iff_ne_empty.mpr hempty
        have hss : (V \ s.processed) \ s.toProcess ⊂ V \ s.processed :=
          Finset.sdiff_ssubset hBsub hBne
        have heq : V \ (stepFrontier site s).processed
            = (V \ s.processed) \ s.toProcess := by
          ext x
          simp only [hproc, Finset.mem_sdiff, Finset.mem_union]
          tauto
        have := Finset.card_lt_card hss
        rw [heq]
        omega

/-- C6: On every finite pagination graph — cyclic ones included — the
breadth-first expansion terminates with an empty work queue within
`|V|` rounds, no URL is ever handed to the Fetcher twice (the
concatenated fetch batches are duplicate-free), and on the synthetic
two-page cycle A↔B the traversal ends with visited = {A, B}. -/
theorem frontier_terminates_no_refetch (site : Site) (V init : Finset String)
    (hinit : init ⊆ V)
    (hcl : ∀ u ∈ V, site.fetchOk u = true → site.pagLinks u ⊆ V) :
    (runFrontier site V.card (initFrontier init)).toProcess = ∅
      ∧ ((runFrontier site V.card (initFrontier init)).fetchLog.flatten).Nodup
      ∧ (runFrontier cycleSite 2 (initFrontier {"A"})).processed
          = ({"A", "B"} : Finset String) := by
  have hinv : frontierInv V (initFrontier init) := by
    refine ⟨hinit, ?_, ?_, ?_, ?_⟩ <;> simp [initFrontier, frontierInv]
  refine ⟨?_, ?_, by decide⟩
  · exact runFrontier_empties site V hcl V.card _ hinv (by simp [initFrontier])
  · exact (runFrontier_inv site V hcl V.card _ hinv).2.2.2.1

/-- Witness for `frontier_terminates_no_refetch` on the two-page cycle. -/
theorem frontier_terminates_no_refetch_witness :
    (runFrontier cycleSite ({"A", "B"} : Finset String).card (initFrontier {"A"})).toProcess = ∅
      ∧ ((runFrontier cycleSite ({"A", "B"} : Finset String).card
          (initFrontier {"A"})).fetchLog.flatten).Nodup
      ∧ (runFrontier cycleSite 2 (initFrontier {"A"})).processed
          = ({"A", "B"} : Finset String) :=
  frontier_terminates_no_refetch cycleSite {"A", "B"} {"A"} (by decide) (by decide)

end Crawler
